import Mathlib

/-!
Verification development for the git-workflow-helper VS Code extension.

The TypeScript sources are shallowly embedded: JavaScript strings become
lists of characters, the external VCS executor becomes a function returning
`Except` values (its stdout on success, the thrown error text on failure),
and the process-wide merge-service state that the source mutates becomes an
explicit record threaded through the embedded operations.
-/

/-- JavaScript string, modelled as its list of characters. -/
abbrev JSStr := List Char

/-- The ASCII whitespace characters removed by `String.prototype.trim`. -/
def jsWhitespaceChar (c : Char) : Bool :=
  c = ' ' || c = '\t' || c = '\n' || c = '\r' || c = '\x0b' || c = '\x0c'

/-- `String.prototype.trim`: whitespace stripped from both ends. -/
def jsTrim (s : JSStr) : JSStr :=
  ((s.dropWhile jsWhitespaceChar).reverse.dropWhile jsWhitespaceChar).reverse

/-- `String.prototype.includes(search)`: `search` occurs contiguously in the string. -/
def jsIncludes (search : JSStr) : JSStr → Bool
  | [] => search.isEmpty
  | c :: rest => search.isPrefixOf (c :: rest) || jsIncludes search rest

/-- `String.prototype.split(sep)` for a one-character separator (`"\n"` in the source). -/
def jsSplitChar (sep : Char) : JSStr → List JSStr
  | [] => [[]]
  | c :: rest =>
    if c = sep then [] :: jsSplitChar sep rest
    else
      match jsSplitChar sep rest with
      | [] => [[c]]
      | h :: t => (c :: h) :: t

/-- `String(n)` for a non-negative JavaScript number: decimal digits. -/
def jsStringOfNat (n : Nat) : JSStr :=
  Nat.toDigits 10 n

/-- `String.prototype.padStart(2, "0")` as used on month and day numbers. -/
def padStart2 (s : JSStr) : JSStr :=
  if s.length < 2 then List.replicate (2 - s.length) '0' ++ s else s

/-- The uniform outcome record of every syntax check (`ValidationResult` of
branchTypes): a flag plus an optional human-readable message. -/
structure ValidationResult where
  isValid : Bool
  error : Option String := none
  deriving DecidableEq

/-- One character of the class `[a-zA-Z0-9_-]` (validatePrefix's pattern). -/
def isWordChar (c : Char) : Bool :=
  ('a' ≤ c && c ≤ 'z') || ('A' ≤ c && c ≤ 'Z') || ('0' ≤ c && c ≤ '9') || c = '_' || c = '-'

/-- One character of the CJK range `一-龥` of validateDescription's pattern. -/
def isCjkChar (c : Char) : Bool :=
  0x4e00 ≤ c.toNat && c.toNat ≤ 0x9fa5

/-- One character of the class `[a-zA-Z0-9一-龥_-]`. -/
def isDescriptionChar (c : Char) : Bool :=
  isWordChar c || isCjkChar c

/-- `/^[a-zA-Z0-9_-]+$/.test s`. -/
def testWordPattern (s : JSStr) : Bool :=
  !s.isEmpty && s.all isWordChar

/-- The regex test of BranchUtils.validateDescription. -/
def testDescriptionPattern (s : JSStr) : Bool :=
  !s.isEmpty && s.all isDescriptionChar

/-- One of the characters git forbids, `/[~^:?*[\]\\]/` in validateBranchName. -/
def isGitForbiddenChar (c : Char) : Bool :=
  c = '~' || c = '^' || c = ':' || c = '?' || c = '*' || c = '[' || c = ']' || c = '\\'

/-- BranchUtils.validateDescription (branchUtils.ts lines 27-54). -/
def validateDescription (description : JSStr) : ValidationResult :=
  if description.isEmpty || (jsTrim description).isEmpty then
    { isValid := false, error := some "描述信息不能为空" }
  else if 50 < description.length then
    { isValid := false, error := some "描述信息长度不能超过50个字符" }
  else if !testDescriptionPattern description then
    { isValid := false, error := some "描述信息只能包含字母、数字、中文、下划线和短横线" }
  else
    { isValid := true }

/-- BranchUtils.validatePrefix (branchUtils.ts lines 59-79). -/
def validatePrefix (pfx : JSStr) : ValidationResult :=
  if pfx.isEmpty || (jsTrim pfx).isEmpty then
    { isValid := false, error := some "分支前缀不能为空" }
  else if !testWordPattern pfx then
    { isValid := false, error := some "分支前缀只能包含字母、数字、下划线和短横线" }
  else
    { isValid := true }

/-- BranchUtils.validateBranchName (branchUtils.ts lines 84-128). -/
def validateBranchName (branchName : JSStr) : ValidationResult :=
  if branchName.isEmpty || (jsTrim branchName).isEmpty then
    { isValid := false, error := some "分支名称不能为空" }
  else if jsIncludes ['/', '/'] branchName then
    { isValid := false, error := some "分支名称不能包含连续斜杠" }
  else if (['/'] : JSStr).isPrefixOf branchName || (['/'] : JSStr).isSuffixOf branchName then
    { isValid := false, error := some "分支名称不能以斜杠开头或结尾" }
  else if jsIncludes [' '] branchName then
    { isValid := false, error := some "分支名称不能包含空格" }
  else if branchName.any isGitForbiddenChar then
    { isValid := false, error := some "分支名称包含Git不支持的字符" }
  else
    { isValid := true }

/-- Argument record of BranchUtils.generateBranchName (`prefix` in the source
is spelt `pfx` here). -/
structure BranchNameOptions where
  pfx : JSStr
  description : JSStr
  username : JSStr
  date : JSStr
  deriving DecidableEq

/-- BranchUtils.generateBranchName (branchUtils.ts lines 133-141):
the template string `prefix/date/description_username`. -/
def generateBranchName (o : BranchNameOptions) : JSStr :=
  o.pfx ++ ('/' :: o.date) ++ ('/' :: o.description) ++ ('_' :: o.username)

/-- The fields of a JavaScript `Date` value read by BranchUtils.formatDate
(`getMonth` is the 0-based month index). -/
structure JSDate where
  getFullYear : Nat
  getMonth : Nat
  getDate : Nat
  deriving DecidableEq

/-- BranchUtils.formatDate (branchUtils.ts lines 7-22); the format arrives as a
string (the configuration value cast to `DateFormat`), unknown formats fall
through to the `yyyyMMdd` default branch of the switch. -/
def formatDate (d : JSDate) (format : JSStr) : JSStr :=
  let year := jsStringOfNat d.getFullYear
  let month := padStart2 (jsStringOfNat (d.getMonth + 1))
  let day := padStart2 (jsStringOfNat d.getDate)
  if format = "yyyyMMdd".toList then year ++ month ++ day
  else if format = "yyyy-MM-dd".toList then year ++ ('-' :: month) ++ ('-' :: day)
  else if format = "yyMMdd".toList then year.drop 2 ++ month ++ day
  else year ++ month ++ day

/-- A symbolic repository operation recorded in the trace of the embedded
merge service (the underlying `git` invocations of gitMergeService.ts). -/
inductive GitCmd where
  | addAll
  | commit (message : String)
  | workflowStep (description : String)
  deriving DecidableEq

/-- The process-wide state of GitMergeService: the static
`isOperationInProgress` flag plus the trace of repository operations the
process has performed so far. -/
structure MergeServiceState where
  isOperationInProgress : Bool
  trace : List GitCmd
  deriving DecidableEq

/-- GitMergeService.checkOperationInProgress (gitMergeService.ts lines
1066-1076): reads the static flag (and shows a warning when it is set). -/
def checkOperationInProgress (s : MergeServiceState) : Bool :=
  s.isOperationInProgress

/-- Outcome of one mergeFeatureBranch invocation. -/
inductive MergeFlowResult where
  | rejected
  | completed
  | failed (message : String)
  deriving DecidableEq

/-- The body of the merge workflow (prepareMergeEnvironment,
gatherMergeParameters, executeMainMergeFlow and the error handler),
abstracted as: given the flag value it observes, the repository operations it
performs and its outcome (`Except.error` covers both thrown errors and the
cancellation errors the source throws for a declined prompt). -/
def MergeBody := Bool → List GitCmd × Except String Unit

/-- GitMergeService.mergeFeatureBranch (gitMergeService.ts lines 1109-1135):
guard on the static flag, set it, run the workflow body in a try/catch, and
clear the flag in the finally block on every exit path. -/
def mergeFeatureBranch (s : MergeServiceState) (workflow : MergeBody) :
    MergeServiceState × MergeFlowResult :=
  if checkOperationInProgress s then (s, .rejected)
  else
    let bodyRun := workflow true
    ({ isOperationInProgress := false, trace := s.trace ++ bodyRun.1 },
      match bodyRun.2 with
      | .ok _ => .completed
      | .error e => .failed e)

/-- The external answers observed by one quickCommitAndMerge run: repository
probe results, the commit-message prompt, and the confirm-merge prompt. -/
structure QuickEnv where
  isGitRepo : Bool
  hasUncommittedChanges : Bool
  commitMessage : Option String
  shouldMerge : Bool

/-- Outcome of one quickCommitAndMerge invocation. -/
inductive QuickResult where
  | rejected
  | noChanges
  | committed
  | merged (r : MergeFlowResult)
  | failed (message : String)
  deriving DecidableEq

/-- GitMergeService.quickCommitAndMerge (gitMergeService.ts lines 1140-1185):
guard on the static flag, set it, commit the pending changes, optionally call
mergeFeatureBranch (while the flag is still set), and clear the flag in the
finally block on every exit path. -/
def quickCommitAndMerge (s : MergeServiceState) (env : QuickEnv)
    (workflow : MergeBody) : MergeServiceState × QuickResult :=
  if checkOperationInProgress s then (s, .rejected)
  else if !env.isGitRepo then
    ({ s with isOperationInProgress := false }, .failed "当前目录不是有效的Git仓库")
  else if !env.hasUncommittedChanges then
    ({ s with isOperationInProgress := false }, .noChanges)
  else
    match env.commitMessage with
    | none => ({ s with isOperationInProgress := false }, .failed "未输入提交信息，操作已取消")
    | some msg =>
      let committed : MergeServiceState :=
        { isOperationInProgress := true, trace := s.trace ++ [.addAll, .commit msg] }
      if env.shouldMerge then
        let nested := mergeFeatureBranch committed workflow
        ({ nested.1 with isOperationInProgress := false }, .merged nested.2)
      else
        ({ committed with isOperationInProgress := false }, .committed)

/-- The answers the conflict-resolution wait loop observes on its i-th
iteration: the repository conflict / dirty state re-queried there, and the
user's choices at the two prompts. -/
structure WaitEnv where
  conflicts : Nat → Bool
  uncommitted : Nat → Bool
  commitChoice : Nat → Bool
  keepWaiting : Nat → Bool

/-- `const maxAttempts = 10` of MergeWorkflow.waitForConflictResolution. -/
def maxAttempts : Nat := 10

/-- The `while (attempts < maxAttempts)` loop of
MergeWorkflow.waitForConflictResolution (gitMergeService.ts lines 630-671),
returning the source's boolean result paired with the number of conflict
checks performed (one per loop iteration). -/
def waitLoop (env : WaitEnv) (attempts : Nat) : Bool × Nat :=
  if attempts < maxAttempts then
    if env.conflicts attempts then
      if env.keepWaiting attempts then
        let rest := waitLoop env (attempts + 1)
        (rest.1, rest.2 + 1)
      else (false, 1)
    else
      if env.uncommitted attempts then
        if env.commitChoice attempts then (true, 1) else (true, 1)
      else (true, 1)
  else (false, 0)
termination_by maxAttempts - attempts
decreasing_by simp [maxAttempts] at *; omega

/-- MergeWorkflow.waitForConflictResolution: the loop started with
`attempts = 0`. -/
def waitForConflictResolution (env : WaitEnv) : Bool × Nat :=
  waitLoop env 0

/-- GitOperations.checkMergeConflicts (gitMergeService.ts lines 70-80): run
`git status --porcelain` through the executor, classify each line by its
two-character status code; a command failure is caught and yields `false`. -/
def conflictStatusCodes : List JSStr :=
  ["UU".toList, "AA".toList, "DD".toList, "AU".toList, "UA".toList, "DU".toList, "UD".toList]

/-- `line.substring(0, 2)` of the classifier. -/
def lineStatusCode (line : JSStr) : JSStr :=
  line.take 2

/-- Whether one porcelain status line is classified as a conflict. -/
def lineIsConflict (line : JSStr) : Bool :=
  conflictStatusCodes.contains (lineStatusCode line)

/-- GitOperations.checkMergeConflicts over the executor's answer to
`git status --porcelain`. -/
def checkMergeConflicts (statusResult : Except String JSStr) : Bool :=
  match statusResult with
  | .error _ => false
  | .ok status => (jsSplitChar '\n' status).any lineIsConflict

/-- GitOperations.checkRemoteBranchExists (gitMergeService.ts lines 99-108 and
part_001 lines 97-106) over the executor's answer to
`git ls-remote --heads origin <branch>`: truthiness of the trimmed output;
a command failure is caught and yields `false`. -/
def checkRemoteBranchExists (cmdResult : Except String JSStr) : Bool :=
  match cmdResult with
  | .ok remoteBranch => !remoteBranch.isEmpty
  | .error _ => false

/-- GitOperations.checkLocalBranchExists (part_001 lines 124-131) over the
executor's answer to `git rev-parse --verify <branch>`: success means the
branch exists; a command failure is caught and yields `false`. -/
def checkLocalBranchExists (cmdResult : Except String JSStr) : Bool :=
  match cmdResult with
  | .ok _ => true
  | .error _ => false

/-- One entry of the branch enumeration (`GitBranch` of branchTypes). -/
structure GitBranch where
  name : JSStr
  current : Bool
  isRemote : Bool
  commit : JSStr
  deriving DecidableEq

/-- Model of `String.prototype.localeCompare`: codepoint-lexicographic
comparison returning -1 / 0 / 1. -/
def localeCompare : JSStr → JSStr → Int
  | [], [] => 0
  | [], _ :: _ => -1
  | _ :: _, [] => 1
  | a :: as, b :: bs =>
    if a < b then -1 else if b < a then 1 else localeCompare as bs

/-- The comparator of BranchCreator.selectBaseBranch (branchCreator.ts lines
275-289): current branch first, then local before remote, ties by name. -/
def branchCompare (a b : GitBranch) : Int :=
  if a.current then -1
  else if b.current then 1
  else if !a.isRemote && b.isRemote then -1
  else if a.isRemote && !b.isRemote then 1
  else localeCompare a.name b.name

/-- `branches.sort(comparator)` of selectBaseBranch: JavaScript's stable sort
with the comparator, modelled as a stable insertion sort ordered by
`branchCompare · · ≤ 0`. -/
def sortBranchesForSelection (branches : List GitBranch) : List GitBranch :=
  List.insertionSort (fun a b => branchCompare a b ≤ 0) branches

/-- One configured merge destination (`TargetBranchConfig` of
gitMergeService.ts). -/
structure TargetBranchConfig where
  name : JSStr
  description : JSStr
  deriving DecidableEq

/-- ConfigurationManager.removeTargetBranch (gitMergeService.ts lines
459-470) acting on the configured list: the new configured list paired with
the thrown error, if any (on a throw the configuration update never runs, so
the list is returned unchanged). -/
def removeTargetBranch (currentBranches : List TargetBranchConfig) (name : JSStr) :
    List TargetBranchConfig × Option String :=
  if currentBranches.length ≤ 1 then
    (currentBranches, some "至少需要保留一个目标分支")
  else
    (currentBranches.filter (fun branch => branch.name != name), none)

/-- BranchCreator.isRemoteBranch (branchCreator.ts lines 173-176). -/
def isRemoteBranch (branchName : JSStr) : Bool :=
  jsIncludes ['/'] branchName && !(("refs/heads/".toList : JSStr).isPrefixOf branchName)

/-- A git invocation of the branch-creation flow. -/
inductive CreateCmd where
  | checkoutNew (branchName baseBranch : JSStr)
  | branchOnly (branchName baseBranch : JSStr)
  | unsetUpstream (branchName : JSStr)
  deriving DecidableEq

/-- BranchCreator.createAndCheckoutBranch (branchCreator.ts lines 181-219) on
its success path: the sequence of git commands it issues, as a function of the
auto-checkout configuration flag. -/
def createAndCheckoutBranch (autoCheckout : Bool) (branchName baseBranch : JSStr) :
    List CreateCmd :=
  (if autoCheckout then [CreateCmd.checkoutNew branchName baseBranch]
   else [CreateCmd.branchOnly branchName baseBranch]) ++
  (if isRemoteBranch baseBranch then [CreateCmd.unsetUpstream branchName] else [])

/-! ## Character-class facts -/

/-- A character that trips none of validateBranchName's character checks. -/
def safeBranchChar (c : Char) : Prop :=
  c ≠ '/' ∧ c ≠ ' ' ∧ isGitForbiddenChar c = false ∧ jsWhitespaceChar c = false

theorem safeBranchChar_of_word {c : Char} (h : isWordChar c = true) : safeBranchChar c := by
  refine ⟨?_, ?_, ?_, ?_⟩
  · rintro rfl; exact absurd h (by decide)
  · rintro rfl; exact absurd h (by decide)
  · cases hg : isGitForbiddenChar c with
    | false => rfl
    | true =>
      exfalso
      simp only [isGitForbiddenChar, Bool.or_eq_true, decide_eq_true_eq] at hg
      rcases hg with (((((((rfl | rfl) | rfl) | rfl) | rfl) | rfl) | rfl) | rfl) <;> exact absurd h (by decide)
  · cases hw : jsWhitespaceChar c with
    | false => rfl
    | true =>
      exfalso
      simp only [jsWhitespaceChar, Bool.or_eq_true, decide_eq_true_eq] at hw
      rcases hw with (((((rfl | rfl) | rfl) | rfl) | rfl) | rfl) <;> exact absurd h (by decide)

theorem safeBranchChar_of_descriptionChar {c : Char} (h : isDescriptionChar c = true) :
    safeBranchChar c := by
  refine ⟨?_, ?_, ?_, ?_⟩
  · rintro rfl; exact absurd h (by decide)
  · rintro rfl; exact absurd h (by decide)
  · cases hg : isGitForbiddenChar c with
    | false => rfl
    | true =>
      exfalso
      simp only [isGitForbiddenChar, Bool.or_eq_true, decide_eq_true_eq] at hg
      rcases hg with (((((((rfl | rfl) | rfl) | rfl) | rfl) | rfl) | rfl) | rfl) <;> exact absurd h (by decide)
  · cases hw : jsWhitespaceChar c with
    | false => rfl
    | true =>
      exfalso
      simp only [jsWhitespaceChar, Bool.or_eq_true, decide_eq_true_eq] at hw
      rcases hw with (((((rfl | rfl) | rfl) | rfl) | rfl) | rfl) <;> exact absurd h (by decide)

/-- One decimal digit. -/
def isDigitChar (c : Char) : Bool :=
  '0' ≤ c && c ≤ '9'

/-- A digit or the hyphen of the `yyyy-MM-dd` format. -/
def isDigitDashChar (c : Char) : Bool :=
  isDigitChar c || c = '-'

theorem safeBranchChar_of_digitDash {c : Char} (h : isDigitDashChar c = true) :
    safeBranchChar c := by
  refine ⟨?_, ?_, ?_, ?_⟩
  · rintro rfl; exact absurd h (by decide)
  · rintro rfl; exact absurd h (by decide)
  · cases hg : isGitForbiddenChar c with
    | false => rfl
    | true =>
      exfalso
      simp only [isGitForbiddenChar, Bool.or_eq_true, decide_eq_true_eq] at hg
      rcases hg with (((((((rfl | rfl) | rfl) | rfl) | rfl) | rfl) | rfl) | rfl) <;> exact absurd h (by decide)
  · cases hw : jsWhitespaceChar c with
    | false => rfl
    | true =>
      exfalso
      simp only [jsWhitespaceChar, Bool.or_eq_true, decide_eq_true_eq] at hw
      rcases hw with (((((rfl | rfl) | rfl) | rfl) | rfl) | rfl) <;> exact absurd h (by decide)

theorem safeBranchChar_ne_slash {c : Char} (h : safeBranchChar c) : c ≠ '/' := h.1

/-! ## Trim and includes facts -/

theorem jsTrim_ne_nil {s : JSStr} {c : Char} (hc : c ∈ s) (hw : jsWhitespaceChar c = false) :
    jsTrim s ≠ [] := by
  intro h
  unfold jsTrim at h
  rw [List.reverse_eq_nil_iff, List.dropWhile_eq_nil_iff] at h
  have hcd : c ∈ s.dropWhile jsWhitespaceChar := by
    have hsplit := List.takeWhile_append_dropWhile (p := jsWhitespaceChar) (l := s)
    rcases List.mem_append.mp (hsplit ▸ hc) with h1 | h1
    · exact absurd (List.mem_takeWhile_imp h1) (by simp [hw])
    · exact h1
  exact absurd (h c (List.mem_reverse.mpr hcd)) (by simp [hw])

theorem jsIncludes_iff_isInfix {search s : JSStr} : jsIncludes search s = true ↔ search <:+: s := by
  induction s with
  | nil => simp [jsIncludes, List.isEmpty_iff]
  | cons c rest ih =>
    simp only [jsIncludes, Bool.or_eq_true, List.isPrefixOf_iff_prefix, ih]
    constructor
    · rintro (⟨t, ht⟩ | h)
      · exact ⟨[], t, by simpa using ht⟩
      · exact List.infix_cons h
    · rintro ⟨pre, post, hsp⟩
      cases pre with
      | nil => exact Or.inl ⟨post, by simpa using hsp⟩
      | cons p ps =>
        right
        rw [List.cons_append, List.cons_append, List.cons.injEq] at hsp
        exact ⟨ps, post, hsp.2⟩

theorem singleton_jsIncludes_iff {a : Char} {s : JSStr} : jsIncludes [a] s = true ↔ a ∈ s := by
  rw [jsIncludes_iff_isInfix]
  constructor
  · intro h; exact h.subset (by simp)
  · intro h
    rcases List.append_of_mem h with ⟨s1, s2, rfl⟩
    exact ⟨s1, s2, by simp⟩

/-! ## No-double-slash machinery -/

/-- Two adjacent characters that are not both slashes. -/
def noDoubleSlashPair (a b : Char) : Prop :=
  ¬(a = '/' ∧ b = '/')

theorem chain_noSlash {l : JSStr} (h : ∀ c ∈ l, c ≠ '/') : l.Chain' noDoubleSlashPair := by
  induction l with
  | nil => exact List.chain'_nil
  | cons a t ih =>
    cases t with
    | nil => exact List.chain'_singleton a
    | cons b t2 =>
      rw [List.chain'_cons]
      refine ⟨fun hab => (h b (by simp)) hab.2, ih ?_⟩
      intro c hc
      exact h c (List.mem_cons_of_mem a hc)

theorem chain_glue {l m : JSStr} (hl : ∀ c ∈ l, c ≠ '/') (hm : m.Chain' noDoubleSlashPair)
    (hmh : ∀ y ∈ m.head?, y ≠ '/') : (l ++ '/' :: m).Chain' noDoubleSlashPair := by
  rw [List.chain'_append]
  refine ⟨chain_noSlash hl, ?_, ?_⟩
  · rw [List.chain'_cons']
    exact ⟨fun y hy hab => (hmh y hy) hab.2, hm⟩
  · intro x hx y hy
    simp only [List.head?_cons, Option.mem_def, Option.some.injEq] at hy
    subst hy
    exact fun hab => (hl x (List.mem_of_getLast?_eq_some hx)) hab.1

theorem not_dslash_of_chain {l : JSStr} (h : l.Chain' noDoubleSlashPair) :
    jsIncludes ['/', '/'] l = false := by
  cases hb : jsIncludes ['/', '/'] l with
  | false => rfl
  | true =>
    exfalso
    have hinf : (['/', '/'] : JSStr) <:+: l := jsIncludes_iff_isInfix.mp hb
    have := List.Chain'.infix h hinf
    rw [List.chain'_cons] at this
    exact this.1 ⟨rfl, rfl⟩

/-! ## Digit-string facts for formatDate -/

theorem digitChar_isDigit {m : Nat} (h : m < 10) : isDigitChar (Nat.digitChar m) = true := by
  interval_cases m <;> decide

theorem toDigitsCore_digits : ∀ (fuel n : Nat) (acc : List Char),
    (∀ c ∈ acc, isDigitChar c = true) →
    ∀ c ∈ Nat.toDigitsCore 10 fuel n acc, isDigitChar c = true := by
  intro fuel
  induction fuel with
  | zero =>
    intro n acc hacc c hc
    simp only [Nat.toDigitsCore] at hc
    exact hacc c hc
  | succ f ih =>
    intro n acc hacc c hc
    simp only [Nat.toDigitsCore] at hc
    have haccd : ∀ x ∈ Nat.digitChar (n % 10) :: acc, isDigitChar x = true := by
      intro x hx
      rcases List.mem_cons.mp hx with rfl | hx
      · exact digitChar_isDigit (Nat.mod_lt n (by decide))
      · exact hacc x hx
    split at hc
    · exact haccd c hc
    · exact ih (n / 10) _ haccd c hc

theorem toDigitsCore_ne_nil : ∀ (fuel n : Nat) (acc : List Char), acc ≠ [] →
    Nat.toDigitsCore 10 fuel n acc ≠ [] := by
  intro fuel
  induction fuel with
  | zero =>
    intro n acc hacc
    simpa only [Nat.toDigitsCore] using hacc
  | succ f ih =>
    intro n acc hacc
    simp only [Nat.toDigitsCore]
    split
    · exact List.cons_ne_nil _ _
    · exact ih (n / 10) _ (List.cons_ne_nil _ _)

theorem jsStringOfNat_digits {n : Nat} : ∀ c ∈ jsStringOfNat n, isDigitChar c = true :=
  toDigitsCore_digits (n + 1) n [] (by simp)

theorem jsStringOfNat_ne_nil (n : Nat) : jsStringOfNat n ≠ [] := by
  show Nat.toDigitsCore 10 (n + 1) n [] ≠ []
  simp only [Nat.toDigitsCore]
  split
  · exact List.cons_ne_nil _ _
  · exact toDigitsCore_ne_nil _ _ _ (List.cons_ne_nil _ _)

theorem padStart2_digits {s : JSStr} (h : ∀ c ∈ s, isDigitChar c = true) :
    ∀ c ∈ padStart2 s, isDigitChar c = true := by
  intro c hc
  unfold padStart2 at hc
  split at hc
  · rcases List.mem_append.mp hc with h1 | h1
    · rw [List.eq_of_mem_replicate h1]; decide
    · exact h c h1
  · exact h c hc

theorem padStart2_ne_nil (s : JSStr) : padStart2 s ≠ [] := by
  unfold padStart2
  split
  · intro heq
    rcases List.append_eq_nil.mp heq with ⟨h1, h2⟩
    rw [List.replicate_eq_nil_iff] at h1
    subst h2
    simp at h1
  · intro heq
    subst heq
    simp_all

theorem isDigitDashChar_of_digit {c : Char} (h : isDigitChar c = true) :
    isDigitDashChar c = true := by
  simp [isDigitDashChar, h]

theorem formatDate_spec (d : JSDate) (fmt : JSStr) :
    formatDate d fmt ≠ [] ∧ ∀ c ∈ formatDate d fmt, isDigitDashChar c = true := by
  unfold formatDate
  have hyd := jsStringOfNat_digits (n := d.getFullYear)
  have hmd := padStart2_digits (s := jsStringOfNat (d.getMonth + 1)) jsStringOfNat_digits
  have hdd := padStart2_digits (s := jsStringOfNat d.getDate) jsStringOfNat_digits
  have hyne := jsStringOfNat_ne_nil d.getFullYear
  have hmne := padStart2_ne_nil (jsStringOfNat (d.getMonth + 1))
  split_ifs <;> refine ⟨?_, ?_⟩
  · intro h
    exact hyne (List.append_eq_nil.mp (List.append_eq_nil.mp h).1).1
  · intro c hc
    simp only [List.mem_append] at hc
    rcases hc with (hc | hc) | hc
    · exact isDigitDashChar_of_digit (hyd c hc)
    · exact isDigitDashChar_of_digit (hmd c hc)
    · exact isDigitDashChar_of_digit (hdd c hc)
  · intro h
    exact hyne (List.append_eq_nil.mp (List.append_eq_nil.mp h).1).1
  · intro c hc
    simp only [List.mem_append, List.mem_cons] at hc
    rcases hc with (hc | rfl | hc) | rfl | hc
    · exact isDigitDashChar_of_digit (hyd c hc)
    · decide
    · exact isDigitDashChar_of_digit (hmd c hc)
    · decide
    · exact isDigitDashChar_of_digit (hdd c hc)
  · intro h
    exact hmne (List.append_eq_nil.mp (List.append_eq_nil.mp h).1).2
  · intro c hc
    simp only [List.mem_append] at hc
    rcases hc with (hc | hc) | hc
    · exact isDigitDashChar_of_digit (hyd c (List.drop_subset 2 _ hc))
    · exact isDigitDashChar_of_digit (hmd c hc)
    · exact isDigitDashChar_of_digit (hdd c hc)
  · intro h
    exact hyne (List.append_eq_nil.mp (List.append_eq_nil.mp h).1).1
  · intro c hc
    simp only [List.mem_append] at hc
    rcases hc with (hc | hc) | hc
    · exact isDigitDashChar_of_digit (hyd c hc)
    · exact isDigitDashChar_of_digit (hmd c hc)
    · exact isDigitDashChar_of_digit (hdd c hc)

/-! ## Validator characterizations -/

theorem testWordPattern_spec {s : JSStr} (h : testWordPattern s = true) :
    s ≠ [] ∧ ∀ c ∈ s, isWordChar c = true := by
  simp only [testWordPattern, Bool.and_eq_true, Bool.not_eq_true', List.isEmpty_eq_false,
    List.all_eq_true] at h
  exact ⟨h.1, fun c hc => h.2 c hc⟩

theorem testDescriptionPattern_spec {s : JSStr} (h : testDescriptionPattern s = true) :
    s ≠ [] ∧ ∀ c ∈ s, isDescriptionChar c = true := by
  simp only [testDescriptionPattern, Bool.and_eq_true, Bool.not_eq_true', List.isEmpty_eq_false,
    List.all_eq_true] at h
  exact ⟨h.1, fun c hc => h.2 c hc⟩

theorem validatePrefix_isValid {s : JSStr} (h : (validatePrefix s).isValid = true) :
    testWordPattern s = true := by
  unfold validatePrefix at h
  split_ifs at h with h1 h2
  simpa using h2

theorem validateDescription_isValid {s : JSStr} (h : (validateDescription s).isValid = true) :
    testDescriptionPattern s = true := by
  unfold validateDescription at h
  split_ifs at h with h1 h2 h3
  simpa using h3

/-! ## Generated branch names pass validateBranchName -/

theorem validateBranchName_generated
    {pfx desc user date : JSStr}
    (hp : testWordPattern pfx = true)
    (hd : testDescriptionPattern desc = true)
    (hu : testWordPattern user = true)
    (hdne : date ≠ []) (hdchars : ∀ c ∈ date, isDigitDashChar c = true) :
    validateBranchName (generateBranchName ⟨pfx, desc, user, date⟩) = { isValid := true } := by
  obtain ⟨hpne, hpw⟩ := testWordPattern_spec hp
  obtain ⟨hdne2, hdw⟩ := testDescriptionPattern_spec hd
  obtain ⟨hune, huw⟩ := testWordPattern_spec hu
  have hpSafe : ∀ c ∈ pfx, safeBranchChar c := fun c hc => safeBranchChar_of_word (hpw c hc)
  have hdSafe : ∀ c ∈ desc, safeBranchChar c :=
    fun c hc => safeBranchChar_of_descriptionChar (hdw c hc)
  have huSafe : ∀ c ∈ user, safeBranchChar c := fun c hc => safeBranchChar_of_word (huw c hc)
  have hdateSafe : ∀ c ∈ date, safeBranchChar c :=
    fun c hc => safeBranchChar_of_digitDash (hdchars c hc)
  have hn : generateBranchName ⟨pfx, desc, user, date⟩ =
      pfx ++ '/' :: (date ++ '/' :: (desc ++ '_' :: user)) := by
    simp [generateBranchName]
  rw [hn]
  set N := pfx ++ '/' :: (date ++ '/' :: (desc ++ '_' :: user)) with hN
  have hmem : ∀ c ∈ N, safeBranchChar c ∨ c = '/' ∨ c = '_' := by
    intro c hc
    rw [hN] at hc
    simp only [List.mem_append, List.mem_cons] at hc
    rcases hc with hc | rfl | hc | rfl | hc | rfl | hc
    · exact Or.inl (hpSafe c hc)
    · exact Or.inr (Or.inl rfl)
    · exact Or.inl (hdateSafe c hc)
    · exact Or.inr (Or.inl rfl)
    · exact Or.inl (hdSafe c hc)
    · exact Or.inr (Or.inr rfl)
    · exact Or.inl (huSafe c hc)
  obtain ⟨p0, ps, hpfx⟩ := List.exists_cons_of_ne_nil hpne
  obtain ⟨d0, ds, hdate0⟩ := List.exists_cons_of_ne_nil hdne
  obtain ⟨e0, es, hdesc0⟩ := List.exists_cons_of_ne_nil hdne2
  have hp0safe : safeBranchChar p0 := hpSafe p0 (by rw [hpfx]; simp)
  have g1 : N.isEmpty = false := by
    rw [List.isEmpty_eq_false, hN]
    intro h
    exact hpne (List.append_eq_nil.mp h).1
  have hp0mem : p0 ∈ N := by rw [hN, hpfx]; simp
  have g1t : (jsTrim N).isEmpty = false := by
    rw [List.isEmpty_eq_false]
    exact jsTrim_ne_nil hp0mem hp0safe.2.2.2
  have tailNoSlash : ∀ c ∈ desc ++ '_' :: user, c ≠ '/' := by
    intro c hc
    simp only [List.mem_append, List.mem_cons] at hc
    rcases hc with hc | rfl | hc
    · exact (hdSafe c hc).1
    · decide
    · exact (huSafe c hc).1
  have chainTail : (desc ++ '_' :: user).Chain' noDoubleSlashPair := chain_noSlash tailNoSlash
  have chainMid : (date ++ '/' :: (desc ++ '_' :: user)).Chain' noDoubleSlashPair := by
    refine chain_glue (fun c hc => (hdateSafe c hc).1) chainTail ?_
    intro y hy
    rw [hdesc0] at hy
    simp only [List.cons_append, List.head?_cons, Option.mem_def, Option.some.injEq] at hy
    subst hy
    exact (hdSafe e0 (by rw [hdesc0]; simp)).1
  have chainN : N.Chain' noDoubleSlashPair := by
    rw [hN]
    refine chain_glue (fun c hc => (hpSafe c hc).1) chainMid ?_
    intro y hy
    rw [hdate0] at hy
    simp only [List.cons_append, List.head?_cons, Option.mem_def, Option.some.injEq] at hy
    subst hy
    exact (hdateSafe d0 (by rw [hdate0]; simp)).1
  have g2 : jsIncludes ['/', '/'] N = false := not_dslash_of_chain chainN
  have g3a : (['/'] : JSStr).isPrefixOf N = false := by
    cases hb : (['/'] : JSStr).isPrefixOf N with
    | false => rfl
    | true =>
      exfalso
      rcases List.isPrefixOf_iff_prefix.mp hb with ⟨t, ht⟩
      rw [hN, hpfx] at ht
      have hhd : '/' = p0 := by
        have := congrArg List.head? ht
        simpa using this
      exact hp0safe.1 hhd.symm
  have hulast : ∃ y, user.getLast? = some y := by
    cases hgl : user.getLast? with
    | none => exact absurd (List.getLast?_eq_none_iff.mp hgl) hune
    | some y => exact ⟨y, rfl⟩
  obtain ⟨uy, huy⟩ := hulast
  have huymem : uy ∈ user := List.mem_of_getLast?_eq_some huy
  have hNlast : N.getLast? = some uy := by
    rw [hN]
    simp [List.getLast?_append, List.getLast?_cons, huy]
  have g3b : (['/'] : JSStr).isSuffixOf N = false := by
    cases hb : (['/'] : JSStr).isSuffixOf N with
    | false => rfl
    | true =>
      exfalso
      have hb' : (['/'] : JSStr).isPrefixOf N.reverse = true := hb
      rcases List.isPrefixOf_iff_prefix.mp hb' with ⟨t, ht⟩
      have hh : N.reverse.head? = some '/' := by rw [← ht]; rfl
      rw [List.head?_reverse, hNlast] at hh
      exact (huSafe uy huymem).1 (Option.some.inj hh)
  have g4 : jsIncludes [' '] N = false := by
    cases hb : jsIncludes [' '] N with
    | false => rfl
    | true =>
      exfalso
      have hsp := singleton_jsIncludes_iff.mp hb
      rcases hmem ' ' hsp with hsafe | h | h
      · exact hsafe.2.1 rfl
      · exact absurd h (by decide)
      · exact absurd h (by decide)
  have g5 : N.any isGitForbiddenChar = false := by
    cases hb : N.any isGitForbiddenChar with
    | false => rfl
    | true =>
      exfalso
      rcases List.any_eq_true.mp hb with ⟨c, hc, hcf⟩
      rcases hmem c hc with hsafe | rfl | rfl
      · rw [hsafe.2.2.1] at hcf; exact Bool.false_ne_true hcf
      · exact absurd hcf (by decide)
      · exact absurd hcf (by decide)
  unfold validateBranchName
  simp [g1, g1t, g2, g3a, g3b, g4, g5]

theorem validateBranchName_isValid_imp {n : JSStr} (h : (validateBranchName n).isValid = true) :
    n.isEmpty = false ∧ (jsTrim n).isEmpty = false ∧ jsIncludes ['/', '/'] n = false ∧
    (['/'] : JSStr).isPrefixOf n = false ∧ (['/'] : JSStr).isSuffixOf n = false ∧
    jsIncludes [' '] n = false ∧ n.any isGitForbiddenChar = false := by
  unfold validateBranchName at h
  split_ifs at h with h1 h2 h3 h4 h5
  simp only [Bool.or_eq_true, not_or, Bool.not_eq_true] at h1 h3
  exact ⟨h1.1, h1.2, by simpa using h2, h3.1, h3.2, by simpa using h4, by simpa using h5⟩

theorem validateBranchName_error_of_invalid {n : JSStr}
    (h : (validateBranchName n).isValid = false) :
    (validateBranchName n).error.isSome = true := by
  unfold validateBranchName at h ⊢
  split_ifs at h ⊢ <;> simp_all

/-- The amended C5 statement, proved below as the claim theorem. -/
theorem validateBranchName_rejects (n : JSStr)
    (h : n = [] ∨ jsIncludes ['/', '/'] n = true ∨ (['/'] : JSStr).isPrefixOf n = true ∨
      (['/'] : JSStr).isSuffixOf n = true ∨ ' ' ∈ n ∨ ∃ c ∈ n, isGitForbiddenChar c = true) :
    (validateBranchName n).isValid = false ∧ (validateBranchName n).error.isSome = true := by
  have hinv : (validateBranchName n).isValid = false := by
    cases hb : (validateBranchName n).isValid with
    | false => rfl
    | true =>
      exfalso
      obtain ⟨e1, e2, e3, e4, e5, e6, e7⟩ := validateBranchName_isValid_imp hb
      rcases h with rfl | h | h | h | h | h
      · simp at e1
      · rw [h] at e3; exact absurd e3 (by decide)
      · rw [h] at e4; exact absurd e4 (by decide)
      · rw [h] at e5; exact absurd e5 (by decide)
      · have hsp := singleton_jsIncludes_iff.mpr h
        rw [e6] at hsp; exact absurd hsp (by decide)
      · rcases h with ⟨c, hc, hcp⟩
        have hany : n.any isGitForbiddenChar = true := List.any_eq_true.mpr ⟨c, hc, hcp⟩
        rw [e7] at hany; exact absurd hany (by decide)
  exact ⟨hinv, validateBranchName_error_of_invalid hinv⟩

/-! ## Comparator facts for the base-branch sort -/

theorem localeCompare_le_total (a : JSStr) : ∀ b, localeCompare a b ≤ 0 ∨ localeCompare b a ≤ 0 := by
  induction a with
  | nil => intro b; cases b <;> simp [localeCompare]
  | cons x xs ih =>
    intro b
    cases b with
    | nil => right; simp [localeCompare]
    | cons y ys =>
      by_cases hxy : x < y
      · left; simp [localeCompare, hxy]
      · by_cases hyx : y < x
        · right; simp [localeCompare, hyx]
        · rcases ih ys with h | h
          · left; simp [localeCompare, hxy, hyx, h]
          · right; simp [localeCompare, hxy, hyx, h]

theorem localeCompare_le_trans : ∀ (a b c : JSStr), localeCompare a b ≤ 0 →
    localeCompare b c ≤ 0 → localeCompare a c ≤ 0 := by
  intro a
  induction a with
  | nil => intro b c _ _; cases c <;> simp [localeCompare]
  | cons x xs ih =>
    intro b c h1 h2
    cases b with
    | nil => simp [localeCompare] at h1
    | cons y ys =>
      cases c with
      | nil => simp [localeCompare] at h2
      | cons z zs =>
        simp only [localeCompare] at h1 h2 ⊢
        by_cases hxy : x < y
        · by_cases hyz : y < z
          · have hxz : x < z := lt_trans hxy hyz
            simp [hxz]
          · by_cases hzy : z < y
            · rw [if_neg hyz, if_pos hzy] at h2; omega
            · have hyzeq : y = z := le_antisymm (not_lt.mp hzy) (not_lt.mp hyz)
              have hxz : x < z := hyzeq ▸ hxy
              simp [hxz]
        · by_cases hyx : y < x
          · rw [if_neg hxy, if_pos hyx] at h1; omega
          · have hxyeq : x = y := le_antisymm (not_lt.mp hyx) (not_lt.mp hxy)
            by_cases hyz : y < z
            · have hxz : x < z := hxyeq ▸ hyz
              simp [hxz]
            · by_cases hzy : z < y
              · rw [if_neg hyz, if_pos hzy] at h2; omega
              · have hxz : ¬x < z := by rw [hxyeq]; exact hyz
                have hzx : ¬z < x := by rw [hxyeq]; exact hzy
                rw [if_neg hxy, if_neg hyx] at h1
                rw [if_neg hyz, if_neg hzy] at h2
                rw [if_neg hxz, if_neg hzx]
                exact ih ys zs h1 h2

theorem branchCompare_le_trans : ∀ (a b c : GitBranch), branchCompare a b ≤ 0 →
    branchCompare b c ≤ 0 → branchCompare a c ≤ 0 := by
  intro a b c h1 h2
  unfold branchCompare at h1 h2 ⊢
  by_cases hac : a.current = true
  · simp [hac]
  · by_cases hbcur : b.current = true
    · rw [if_neg hac, if_pos hbcur] at h1; omega
    · by_cases hccur : c.current = true
      · rw [if_neg hbcur, if_pos hccur] at h2; omega
      · simp only [hac, hbcur, hccur, if_false] at h1 h2 ⊢
        cases har : a.isRemote <;> cases hbr : b.isRemote <;> cases hcr : c.isRemote <;>
          simp [har, hbr, hcr] at h1 h2 ⊢ <;>
            exact localeCompare_le_trans _ _ _ h1 h2
  
theorem branchCompare_le_total (a b : GitBranch) :
    branchCompare a b ≤ 0 ∨ branchCompare b a ≤ 0 := by
  unfold branchCompare
  by_cases hac : a.current = true
  · left; simp [hac]
  · by_cases hbc : b.current = true
    · right; simp [hbc]
    · simp only [hac, hbc, if_false]
      cases har : a.isRemote <;> cases hbr : b.isRemote <;> simp [har, hbr] <;>
        exact localeCompare_le_total _ _

/-! ## Conflict-wait loop facts -/

theorem waitLoop_checks_le (env : WaitEnv) :
    ∀ (d attempts : Nat), maxAttempts - attempts = d → (waitLoop env attempts).2 ≤ d := by
  intro d
  induction d with
  | zero =>
    intro a h
    unfold waitLoop
    have ha : ¬a < maxAttempts := by omega
    simp [ha]
  | succ k ih =>
    intro a h
    unfold waitLoop
    by_cases ha : a < maxAttempts
    · have hrec := ih (a + 1) (by omega)
      simp only [ha, if_true]
      split_ifs <;> simp_all
    · simp [ha]

theorem waitLoop_timeout (env : WaitEnv)
    (hc : ∀ i, env.conflicts i = true) (hk : ∀ i, env.keepWaiting i = true) :
    ∀ (d attempts : Nat), maxAttempts - attempts = d → waitLoop env attempts = (false, d) := by
  intro d
  induction d with
  | zero =>
    intro a h
    unfold waitLoop
    have ha : ¬a < maxAttempts := by omega
    simp [ha]
  | succ k ih =>
    intro a h
    unfold waitLoop
    have ha : a < maxAttempts := by omega
    simp [ha, hc a, hk a, ih (a + 1) (by omega)]

/-! ## Claim theorems -/

/-- C1 (counterexample to the claim as stated): prefix `feat` passes
validatePrefix, description `login` passes validateDescription, and the date
is a formatDate output, yet with the unconstrained username `a b` the
generated branch name fails validateBranchName. -/
theorem C1_counterexample :
    (validatePrefix ("feat".toList)).isValid = true ∧
    (validateDescription ("login".toList)).isValid = true ∧
    (validateBranchName (generateBranchName
      ⟨"feat".toList, "login".toList, "a b".toList,
        formatDate ⟨2025, 0, 1⟩ ("yyyyMMdd".toList)⟩)).isValid = false := by
  decide

/-- C1 (amended): if the prefix passes validatePrefix, the description passes
validateDescription, the date is a formatDate output, and the username also
satisfies validatePrefix's character rule, then the name generateBranchName
returns passes validateBranchName; and the generator is deterministic:
identical inputs give identical names. -/
theorem C1_generateBranchName_valid (pfx desc user : JSStr) (d : JSDate) (fmt : JSStr)
    (hp : (validatePrefix pfx).isValid = true)
    (hd : (validateDescription desc).isValid = true)
    (hu : (validatePrefix user).isValid = true) :
    (validateBranchName (generateBranchName
      ⟨pfx, desc, user, formatDate d fmt⟩)).isValid = true ∧
    generateBranchName ⟨pfx, desc, user, formatDate d fmt⟩ =
      generateBranchName ⟨pfx, desc, user, formatDate d fmt⟩ := by
  obtain ⟨hne, hchars⟩ := formatDate_spec d fmt
  refine ⟨?_, rfl⟩
  rw [validateBranchName_generated (validatePrefix_isValid hp) (validateDescription_isValid hd)
    (validatePrefix_isValid hu) hne hchars]

/-- C1 witness: the amended theorem applied at a concrete valid input. -/
theorem C1_generateBranchName_valid_witness :
    (validateBranchName (generateBranchName
      ⟨"feat".toList, "login".toList, "alice".toList,
        formatDate ⟨2025, 0, 1⟩ ("yyyyMMdd".toList)⟩)).isValid = true ∧
    generateBranchName ⟨"feat".toList, "login".toList, "alice".toList,
        formatDate ⟨2025, 0, 1⟩ ("yyyyMMdd".toList)⟩ =
      generateBranchName ⟨"feat".toList, "login".toList, "alice".toList,
        formatDate ⟨2025, 0, 1⟩ ("yyyyMMdd".toList)⟩ :=
  C1_generateBranchName_valid _ _ _ _ _ (by decide) (by decide) (by decide)

/-- C2: while one merge workflow is in flight (the static flag is set), a new
mergeFeatureBranch invocation returns rejected with the process state
untouched (no repository operation is traced); and when the flag is clear the
workflow body runs observing the flag set to true, with the flag cleared again
on every exit path, success or error alike. -/
theorem C2_mergeFeatureBranch_single_flight (s : MergeServiceState) (workflow : MergeBody) :
    (s.isOperationInProgress = true →
      mergeFeatureBranch s workflow = (s, MergeFlowResult.rejected)) ∧
    (s.isOperationInProgress = false →
      (mergeFeatureBranch s workflow).1.isOperationInProgress = false ∧
      (mergeFeatureBranch s workflow).1.trace = s.trace ++ (workflow true).1 ∧
      (mergeFeatureBranch s workflow).2 =
        (match (workflow true).2 with
          | Except.ok _ => MergeFlowResult.completed
          | Except.error e => MergeFlowResult.failed e)) := by
  unfold mergeFeatureBranch checkOperationInProgress
  cases hs : s.isOperationInProgress <;> simp [hs]

/-- C2 witness: a second invocation started while the flag is set is rejected
and changes nothing; an invocation from the idle state clears the flag. -/
theorem C2_single_flight_witness :
    mergeFeatureBranch ⟨true, [GitCmd.addAll]⟩ (fun _ => ([GitCmd.addAll], Except.ok ())) =
      (⟨true, [GitCmd.addAll]⟩, MergeFlowResult.rejected) ∧
    (mergeFeatureBranch ⟨false, []⟩
      (fun _ => ([GitCmd.addAll], Except.ok ()))).1.isOperationInProgress = false :=
  ⟨(C2_mergeFeatureBranch_single_flight ⟨true, [GitCmd.addAll]⟩ _).1 rfl,
    ((C2_mergeFeatureBranch_single_flight ⟨false, []⟩ _).2 rfl).1⟩

/-- C3: the conflict-resolution wait loop performs at most maxAttempts = 10
conflict checks for every environment, and when every check finds conflicts
and the user always answers re-check, it stops after exactly 10 checks with
the failure result false. -/
theorem C3_waitForConflictResolution_bounded (env : WaitEnv) :
    maxAttempts = 10 ∧
    (waitForConflictResolution env).2 ≤ 10 ∧
    ((∀ i, env.conflicts i = true) → (∀ i, env.keepWaiting i = true) →
      waitForConflictResolution env = (false, 10)) := by
  refine ⟨rfl, ?_, ?_⟩
  · exact waitLoop_checks_le env 10 0 rfl
  · intro hc hk
    exact waitLoop_timeout env hc hk 10 0 rfl

/-- C3 witness: with conflicts never resolving and the user always choosing
to re-check, the loop stops with false after exactly 10 checks. -/
theorem C3_bounded_witness :
    waitForConflictResolution
      ⟨fun _ => true, fun _ => false, fun _ => false, fun _ => true⟩ = (false, 10) :=
  (C3_waitForConflictResolution_bounded
    ⟨fun _ => true, fun _ => false, fun _ => false, fun _ => true⟩).2.2
    (fun _ => rfl) (fun _ => rfl)

/-- C4: checkMergeConflicts on a successful status query is true exactly when
some split line's two-character prefix is one of UU, AA, DD, AU, UA, DU, UD; a
failed query yields false; and lines whose code is "M ", "A " or "??" are
never classified as conflicts. -/
theorem C4_checkMergeConflicts_classifier (status : JSStr) :
    (checkMergeConflicts (Except.ok status) = true ↔
      ∃ line ∈ jsSplitChar '\n' status, lineStatusCode line ∈ conflictStatusCodes) ∧
    (∀ e : String, checkMergeConflicts (Except.error e) = false) ∧
    (∀ line : JSStr, lineStatusCode line = "M ".toList ∨ lineStatusCode line = "A ".toList ∨
      lineStatusCode line = "??".toList → lineIsConflict line = false) := by
  refine ⟨?_, fun e => rfl, ?_⟩
  · simp only [checkMergeConflicts, lineIsConflict, List.any_eq_true, List.contains_iff_exists_mem_beq]
    constructor
    · rintro ⟨line, hline, code, hcode, hbeq⟩
      exact ⟨line, hline, by rwa [eq_of_beq hbeq]⟩
    · rintro ⟨line, hline, hcode⟩
      exact ⟨line, hline, lineStatusCode line, hcode, by simp⟩
  · intro line h
    rcases h with h | h | h <;> (unfold lineIsConflict; rw [h]; decide)

/-- C4 witness: a status output with a UU line is classified as conflicted,
one with only "M " and "??" lines is not. -/
theorem C4_classifier_witness :
    checkMergeConflicts (Except.ok ("UU a.ts\nM  b.ts".toList)) = true ∧
    checkMergeConflicts (Except.ok ("M  b.ts\n?? c.ts".toList)) = false ∧
    lineIsConflict ("M  b.ts".toList) = false :=
  ⟨by decide, by decide,
    (C4_checkMergeConflicts_classifier []).2.2 ("M  b.ts".toList) (Or.inl (by decide))⟩

/-- C5 (counterexample to the claim as stated): the name `a<TAB>b` contains a
whitespace character, yet validateBranchName accepts it — only the literal
space character is rejected. -/
theorem C5_counterexample :
    (validateBranchName ('a' :: '\t' :: 'b' :: [])).isValid = true ∧
    '\t' ∈ ('a' :: '\t' :: 'b' :: []) ∧ jsWhitespaceChar '\t' = true := by
  decide

/-- C5 (amended): every name that is empty, contains `//`, starts or ends with
`/`, contains a space character, or contains one of `~ ^ : ? * [ ] \` is
reported invalid by validateBranchName, with an error message present
(whitespace other than the space character is not rejected). -/
theorem C5_validateBranchName_rejects (n : JSStr)
    (h : n = [] ∨ jsIncludes ['/', '/'] n = true ∨ (['/'] : JSStr).isPrefixOf n = true ∨
      (['/'] : JSStr).isSuffixOf n = true ∨ ' ' ∈ n ∨ ∃ c ∈ n, isGitForbiddenChar c = true) :
    (validateBranchName n).isValid = false ∧ (validateBranchName n).error.isSome = true :=
  validateBranchName_rejects n h

/-- C5 witness: the amended theorem applied to the name `a b`. -/
theorem C5_rejects_witness :
    (validateBranchName ("a b".toList)).isValid = false ∧
    (validateBranchName ("a b".toList)).error.isSome = true :=
  C5_validateBranchName_rejects ("a b".toList)
    (Or.inr (Or.inr (Or.inr (Or.inr (Or.inl (by decide))))))

/-- C6: the existence probes never propagate a command failure: an executor
error makes checkRemoteBranchExists and checkLocalBranchExists answer false
("does not exist"), while on success the remote probe is the truthiness of
the command output and the local probe is true. -/
theorem C6_existence_probes_never_throw (e : String) (out : JSStr) :
    checkRemoteBranchExists (Except.error e) = false ∧
    checkLocalBranchExists (Except.error e) = false ∧
    checkRemoteBranchExists (Except.ok out) = !out.isEmpty ∧
    checkLocalBranchExists (Except.ok out) = true :=
  ⟨rfl, rfl, rfl, rfl⟩

/-- C6 witness: the probes at one failed and one successful command. -/
theorem C6_probes_witness :
    checkRemoteBranchExists (Except.error "fatal: not a git repository") = false ∧
    checkLocalBranchExists (Except.error "fatal: bad revision") = false ∧
    checkRemoteBranchExists (Except.ok ("abc123 refs/heads/uat".toList)) = true :=
  ⟨(C6_existence_probes_never_throw "fatal: not a git repository" []).1,
    (C6_existence_probes_never_throw "fatal: bad revision" []).2.1, by decide⟩

/-- C7: the base-branch selection sort is ordered by the source's comparator
(current branch first, then local before remote, ties by name comparison),
is a permutation of the input, and on the concrete list
[b(remote), a(local, current), c(local)] returns [a, c, b]. -/
theorem C7_selectBaseBranch_sorted :
    sortBranchesForSelection
        [⟨"b".toList, false, true, []⟩, ⟨"a".toList, true, false, []⟩,
          ⟨"c".toList, false, false, []⟩] =
      [⟨"a".toList, true, false, []⟩, ⟨"c".toList, false, false, []⟩,
        ⟨"b".toList, false, true, []⟩] ∧
    (∀ branches : List GitBranch,
      (sortBranchesForSelection branches).Pairwise (fun a b => branchCompare a b ≤ 0)) ∧
    (∀ branches : List GitBranch, List.Perm (sortBranchesForSelection branches) branches) ∧
    (∀ a b : GitBranch, a.current = true → branchCompare a b ≤ 0) ∧
    (∀ a b : GitBranch, a.current = false → b.current = false →
      a.isRemote = false → b.isRemote = true →
      branchCompare a b ≤ 0 ∧ ¬branchCompare b a ≤ 0) ∧
    (∀ a b : GitBranch, a.current = false → b.current = false → a.isRemote = b.isRemote →
      branchCompare a b = localeCompare a.name b.name) := by
  refine ⟨by decide, ?_, ?_, ?_, ?_, ?_⟩
  · intro branches
    haveI : IsTrans GitBranch (fun a b => branchCompare a b ≤ 0) :=
      ⟨fun a b c => branchCompare_le_trans a b c⟩
    haveI : IsTotal GitBranch (fun a b => branchCompare a b ≤ 0) :=
      ⟨fun a b => branchCompare_le_total a b⟩
    exact List.sorted_insertionSort _ branches
  · intro branches
    exact List.perm_insertionSort _ branches
  · intro a b ha
    simp [branchCompare, ha]
  · intro a b ha hb har hbr
    constructor
    · simp [branchCompare, ha, hb, har, hbr]
    · simp [branchCompare, ha, hb, har, hbr]
  · intro a b ha hb hr
    simp [branchCompare, ha, hb, hr]

/-- C7 witness: the concrete order and the comparator facts at one pair. -/
theorem C7_sorted_witness :
    (sortBranchesForSelection
        [⟨"b".toList, false, true, []⟩, ⟨"a".toList, true, false, []⟩,
          ⟨"c".toList, false, false, []⟩]).map GitBranch.name =
      ["a".toList, "c".toList, "b".toList] ∧
    branchCompare ⟨"c".toList, false, false, []⟩ ⟨"b".toList, false, true, []⟩ ≤ 0 :=
  ⟨by decide,
    ((C7_selectBaseBranch_sorted.2.2.2.2.1 ⟨"c".toList, false, false, []⟩
      ⟨"b".toList, false, true, []⟩ rfl rfl rfl rfl).1)⟩

/-- C8 (counterexample to the claim as stated): with two configured entries
that share the name uat, removing uat succeeds (no error) and leaves the
configured list empty. -/
theorem C8_counterexample :
    removeTargetBranch [⟨"uat".toList, "A".toList⟩, ⟨"uat".toList, "B".toList⟩]
      ("uat".toList) = ([], none) := by
  decide

/-- C8 (amended): removing a target branch fails with an error whenever the
configured list has length 1 or less, and on that failure the list is
returned unchanged; when the configured names are pairwise distinct (as the
add operation enforces), a successful removal never empties the list — with
duplicate names, however, a removal can empty it. -/
theorem C8_removeTargetBranch_guard (branches : List TargetBranchConfig) (name : JSStr) :
    (branches.length ≤ 1 →
      removeTargetBranch branches name = (branches, some "至少需要保留一个目标分支")) ∧
    ((branches.map TargetBranchConfig.name).Nodup →
      ∀ result, removeTargetBranch branches name = (result, none) → result ≠ []) := by
  constructor
  · intro h
    unfold removeTargetBranch
    simp [h]
  · intro hnodup result hres
    unfold removeTargetBranch at hres
    split_ifs at hres with hlen
    · simp at hres
    · have hresult : result = branches.filter (fun b => b.name != name) :=
        (congrArg Prod.fst hres).symm
      intro hnil
      rw [hresult, List.filter_eq_nil_iff] at hnil
      have hall : ∀ b ∈ branches, b.name = name := by
        intro b hb
        have := hnil b hb
        simpa using this
      have h2le : 2 ≤ branches.length := by omega
      obtain ⟨b1, rest, rfl⟩ := List.exists_cons_of_ne_nil
        (by intro h; rw [h] at h2le; simp at h2le : branches ≠ [])
      obtain ⟨b2, rest2, rfl⟩ := List.exists_cons_of_ne_nil
        (by intro h; rw [h] at h2le; simp at h2le : rest ≠ [])
      have hb1 : b1.name = name := hall b1 (by simp)
      have hb2 : b2.name = name := hall b2 (by simp)
      simp only [List.map_cons, List.nodup_cons, List.mem_cons] at hnodup
      exact hnodup.1 (Or.inl (by rw [hb1, hb2]))

/-- C8 witness: the amended theorem at a distinct-name list of length 2 and at
a single-element list. -/
theorem C8_guard_witness :
    removeTargetBranch [⟨"uat".toList, "A".toList⟩] ("uat".toList) =
      ([⟨"uat".toList, "A".toList⟩], some "至少需要保留一个目标分支") ∧
    ∀ result, removeTargetBranch [⟨"uat".toList, "A".toList⟩, ⟨"pre".toList, "B".toList⟩]
      ("uat".toList) = (result, none) → result ≠ [] :=
  ⟨(C8_removeTargetBranch_guard [⟨"uat".toList, "A".toList⟩] ("uat".toList)).1 (by decide),
    (C8_removeTargetBranch_guard _ ("uat".toList)).2 (by decide)⟩

/-- C9: in every quickCommitAndMerge run that reaches the merge confirmation
and the user confirms, the nested mergeFeatureBranch call observes the static
flag still set (it was set by quickCommitAndMerge and not yet released) and
returns rejected, so the run traces only the commit operations and no merge
step, whatever the merge workflow body would do. -/
theorem C9_quickCommitAndMerge_nested_merge_rejected
    (s : MergeServiceState) (env : QuickEnv) (workflow : MergeBody) (m : String)
    (hidle : s.isOperationInProgress = false) (hrepo : env.isGitRepo = true)
    (hchanges : env.hasUncommittedChanges = true) (hmsg : env.commitMessage = some m)
    (hmerge : env.shouldMerge = true) :
    quickCommitAndMerge s env workflow =
      ({ isOperationInProgress := false, trace := s.trace ++ [GitCmd.addAll, GitCmd.commit m] },
        QuickResult.merged MergeFlowResult.rejected) := by
  unfold quickCommitAndMerge mergeFeatureBranch checkOperationInProgress
  simp [hidle, hrepo, hchanges, hmsg, hmerge]

/-- C9 witness: the theorem at a concrete idle state and confirming user. -/
theorem C9_nested_merge_witness :
    quickCommitAndMerge ⟨false, []⟩ ⟨true, true, some "fix", true⟩
        (fun _ => ([GitCmd.workflowStep "merge"], Except.ok ())) =
      ({ isOperationInProgress := false, trace := [GitCmd.addAll, GitCmd.commit "fix"] },
        QuickResult.merged MergeFlowResult.rejected) := by
  have h := C9_quickCommitAndMerge_nested_merge_rejected ⟨false, []⟩ ⟨true, true, some "fix", true⟩
    (fun _ => ([GitCmd.workflowStep "merge"], Except.ok ())) "fix" rfl rfl rfl rfl rfl
  simpa using h

/-- C10: every base branch whose name contains a slash and does not start with
refs/heads/ is classified as remote by isRemoteBranch, so the creation flow
appends an unset-upstream command for the new branch after creating it — also
when the base is a local branch whose name merely contains slashes, such as
one produced by the extension's own naming scheme. -/
theorem C10_isRemoteBranch_classification (baseBranch branchName : JSStr) (autoCheckout : Bool)
    (hslash : jsIncludes ['/'] baseBranch = true)
    (hrefs : (("refs/heads/".toList : JSStr)).isPrefixOf baseBranch = false) :
    isRemoteBranch baseBranch = true ∧
    CreateCmd.unsetUpstream branchName ∈ createAndCheckoutBranch autoCheckout branchName baseBranch := by
  have hr : isRemoteBranch baseBranch = true := by
    unfold isRemoteBranch
    rw [hslash, hrefs]
    rfl
  refine ⟨hr, ?_⟩
  unfold createAndCheckoutBranch
  rw [hr]
  cases autoCheckout <;> simp

/-- C10 witness: a locally generated feature-branch name used as base is
classified remote and triggers the unset-upstream command. -/
theorem C10_classification_witness :
    isRemoteBranch ("feature/20250101/login_alice".toList) = true ∧
    CreateCmd.unsetUpstream ("bugfix/20250202/fix_bob".toList) ∈
      createAndCheckoutBranch true ("bugfix/20250202/fix_bob".toList)
        ("feature/20250101/login_alice".toList) :=
  C10_isRemoteBranch_classification _ _ _ (by decide) (by decide)
